import Mathlib

/-!
Verification of the `opinary/jwt` Go package: a shallow embedding of the
token codec (`Encode`, `DecodeClaims`), the base64url segment codec
(`encode`, `fixPadding`, `maxlen`), and the HMAC / RSA verifier capability
structure, together with theorems settling the specification claims.

Bytes are modelled as `Nat` values (< 256 where it matters); byte slices as
`List Nat`; Go's `error` results as `Option`; the caller-supplied claims
target mutated through a pointer as explicit state passing.  JSON
(de)serialization and the cryptographic hash primitives are external
capabilities of the host platform (not part of the repository), so they
enter as parameters.
-/

namespace Jwt

/-! ## Base64url alphabet -/

/-- Modelled from the spec: the base64url alphabet used by Go's
`encoding/base64` `URLEncoding` (`A-Z a-z 0-9 - _`), mapping a sextet
`n < 64` to its ASCII code. -/
def b64char (n : Nat) : Nat :=
  if n < 26 then 65 + n
  else if n < 52 then 97 + (n - 26)
  else if n < 62 then 48 + (n - 52)
  else if n = 62 then 45
  else 95

/-- Modelled from the spec: the inverse alphabet lookup of Go's
`encoding/base64` decoder; `none` for a character outside the base64url
alphabet (including the pad character `=` = 61). -/
def b64index (c : Nat) : Option Nat :=
  if 65 ≤ c ∧ c ≤ 90 then some (c - 65)
  else if 97 ≤ c ∧ c ≤ 122 then some (26 + (c - 97))
  else if 48 ≤ c ∧ c ≤ 57 then some (52 + (c - 48))
  else if c = 45 then some 62
  else if c = 95 then some 63
  else none

/-- Modelled from the spec: Go's `URLEncoding.Encode`, producing the padded
base64url encoding: groups of three bytes become four alphabet characters,
a trailing group of one or two bytes is padded with `=` (ASCII 61). -/
def encB64 : List Nat → List Nat
  | b0 :: b1 :: b2 :: rest =>
      b64char (b0 / 4) :: b64char (b0 % 4 * 16 + b1 / 16) ::
        b64char (b1 % 16 * 4 + b2 / 64) :: b64char (b2 % 64) :: encB64 rest
  | [b0, b1] =>
      [b64char (b0 / 4), b64char (b0 % 4 * 16 + b1 / 16), b64char (b1 % 16 * 4), 61]
  | [b0] => [b64char (b0 / 4), b64char (b0 % 4 * 16), 61, 61]
  | [] => []

/-- Modelled from the spec: Go's `URLEncoding.Decode` on padded input:
four-character groups, `=` padding allowed only for the final group (one
`=` for a two-byte group, two `=` for a one-byte group); any alphabet
violation or length violation is an error (`none`). -/
def decB64 : List Nat → Option (List Nat)
  | c0 :: c1 :: c2 :: c3 :: rest =>
    match b64index c0, b64index c1 with
    | some s0, some s1 =>
      if c2 = 61 then
        if c3 = 61 ∧ rest = [] then some [s0 * 4 + s1 / 16] else none
      else
        match b64index c2 with
        | some s2 =>
          if c3 = 61 then
            if rest = [] then some [s0 * 4 + s1 / 16, s1 % 16 * 16 + s2 / 4] else none
          else
            match b64index c3 with
            | some s3 =>
              match decB64 rest with
              | some bs =>
                  some ((s0 * 4 + s1 / 16) :: (s1 % 16 * 16 + s2 / 4) :: (s2 % 4 * 64 + s3) :: bs)
              | none => none
            | none => none
        | none => none
    | _, _ => none
  | [] => some []
  | _ => none

/-- Model of `bytes.TrimRight(b64, "=")`: remove all trailing pad
characters. -/
def trimRightEq (l : List Nat) : List Nat := l.rdropWhile (fun c => c == 61)

/-- Source `encode` (part_000, lines 92–97): base64url-encode and strip the
trailing `=` padding. -/
def encode (b : List Nat) : List Nat := trimRightEq (encB64 b)

/-- Source `fixPadding` (part_000, lines 212–219): restore `=` padding until
the length is a multiple of four. -/
def fixPadding (b : List Nat) : List Nat :=
  if b.length % 4 > 0 then b ++ List.replicate (4 - b.length % 4) 61 else b

/-- Source `maxlen` (part_000, lines 200–208): length of the longest element. -/
def maxlen (a : List (List Nat)) : Nat :=
  a.foldl (fun m b => if b.length > m then b.length else m) 0

/-! ## Token splitting: `bytes.Split(token, ".")` -/

/-- Source `bytes.Split(token, []byte("."))` with the single-byte separator
`'.'` = 46: the list of separator-free segments, one more than the number
of separators. -/
def splitDot : List Nat → List (List Nat)
  | [] => [[]]
  | c :: rest =>
    if c = 46 then [] :: splitDot rest
    else
      match splitDot rest with
      | [] => [[c]]
      | h :: t => (c :: h) :: t

/-- Inverse of `splitDot`: interleave the segments with `'.'` separators. -/
def joinDot : List (List Nat) → List Nat
  | [] => []
  | [a] => a
  | a :: rest => a ++ 46 :: joinDot rest

/-! ## Data model: header view, lifetime view, external JSON capability -/

/-- The header view decoded by `DecodeClaims` (part_000, lines 120–123):
only `alg` and `kid`, a missing JSON field decoding to `""`. -/
structure HeaderV where
  alg : String
  kid : String
deriving DecidableEq

/-- The internal lifetime view (part_000, lines 138–141): `exp` and `nbf`
as 64-bit integers, `0` meaning unset. -/
structure Lifetime where
  exp : Int
  nbf : Int
deriving DecidableEq

/-- The external JSON capability consumed by the core (`encoding/json` is
the host platform's serialization service, not part of this repository):
serialization used by `Encode`, and the three deserializations performed by
`DecodeClaims`.  `updateClaims b c` is `json.Unmarshal(b, &c)`: the new
value of the caller's claims target on success; `none` models an unmarshal
error (in which case `DecodeClaims` returns without further writes). -/
structure JsonCodec (α : Type) where
  parseHeader : List Nat → Option HeaderV
  updateClaims : List Nat → α → Option α
  parseLifetime : List Nat → Option Lifetime
  serializeHeader : String → String → Option (List Nat)
  serializeClaims : α → Option (List Nat)

/-- Source `Verifier` interface plus the dynamically detected
`namedKeyHolder` capability: `keyID = none` models an object that does not
implement `KeyID()`; `verify sig data = none` models a nil error. -/
structure VerifierM (ε : Type) where
  algorithm : String
  keyID : Option String
  verify : List Nat → List Nat → Option ε

/-- Source `Signer` interface: a `Verifier` together with `Sign`;
`sign data = none` models a signing error. -/
structure SignerM (ε : Type) extends VerifierM ε where
  sign : List Nat → Option (List Nat)

/-- The errors `DecodeClaims` can return.  The sentinel values of part_000
(`ErrMalformedToken`, `ErrInvalidSigner`, `ErrExpired`, `ErrNotReady`) and
the non-sentinel wrapped `fmt.Errorf` failures (base64 or JSON, per
segment) are distinct constructors; `verifyErr e` is the error propagated
unchanged from `Verifier.Verify`. -/
inductive DErr (ε : Type) where
  | malformedToken
  | b64HeaderErr
  | jsonHeaderErr
  | b64ClaimsErr
  | jsonClaimsErr
  | jsonLifetimeErr
  | invalidSigner
  | b64SigErr
  | verifyErr (e : ε)
  | expired
  | notReady
deriving DecidableEq

/-- The key-id comparison of part_000, lines 151–155: a mismatch is flagged
only when the verifier implements `KeyID()` and the header's `kid` is
non-empty and the two differ. -/
def kidMismatch (vkid : Option String) (hkid : String) : Bool :=
  match vkid with
  | none => false
  | some k => hkid != "" && k != hkid

/-- Source line 163: `beforeSign := token[:len(token)-len(chunks[2])-1]`. -/
def beforeSign (token c2 : List Nat) : List Nat :=
  token.take (token.length - c2.length - 1)

/-- Source `DecodeClaims` (part_000, lines 104–178), with the caller's
claims target passed as explicit state: the second component of the result
is the target's value when the function returns (the target is written by
the claims unmarshal of line 134, before any validation). `now` is the
Unix time observed at line 169. -/
def DecodeClaims {α ε : Type} (codec : JsonCodec α) (now : Int) (token : List Nat)
    (v : VerifierM ε) (claims : α) : Option (DErr ε) × α :=
  match splitDot token with
  | [c0, c1, c2] =>
    match decB64 (fixPadding c0) with
    | none => (some .b64HeaderErr, claims)
    | some hBytes =>
      match codec.parseHeader hBytes with
      | none => (some .jsonHeaderErr, claims)
      | some header =>
        match decB64 (fixPadding c1) with
        | none => (some .b64ClaimsErr, claims)
        | some cBytes =>
          match codec.updateClaims cBytes claims with
          | none => (some .jsonClaimsErr, claims)
          | some claims1 =>
            match codec.parseLifetime cBytes with
            | none => (some .jsonLifetimeErr, claims1)
            | some lt =>
              if header.alg ≠ v.algorithm then (some .invalidSigner, claims1)
              else if kidMismatch v.keyID header.kid then (some .invalidSigner, claims1)
              else
                match decB64 (fixPadding c2) with
                | none => (some .b64SigErr, claims1)
                | some sg =>
                  match v.verify sg (beforeSign token c2) with
                  | some e => (some (.verifyErr e), claims1)
                  | none =>
                    if lt.exp ≠ 0 ∧ lt.exp < now then (some .expired, claims1)
                    else if lt.nbf ≠ 0 ∧ lt.nbf > now then (some .notReady, claims1)
                    else (none, claims1)
  | _ => (some .malformedToken, claims)

/-- Source `Encode` (part_000, lines 37–76): serialize the header (with
`typ = "JWT"`, the signer's algorithm, and its key id — `""` when the
signer does not implement `KeyID()`, dropped by `omitempty` inside
`serializeHeader`), serialize the claims, sign
`base64url(header) ++ "." ++ base64url(claims)`, and append the encoded
signature. -/
def Encode {α ε : Type} (codec : JsonCodec α) (sig : SignerM ε) (claims : α) :
    Option (List Nat) :=
  match codec.serializeHeader sig.algorithm (sig.keyID.getD "") with
  | none => none
  | some hJson =>
    match codec.serializeClaims claims with
    | none => none
    | some cJson =>
      let signingInput := encode hJson ++ 46 :: encode cJson
      match sig.sign signingInput with
      | none => none
      | some sg => some (signingInput ++ 46 :: encode sg)

/-! ## HMAC and RSA algorithm families -/

/-- The errors the concrete verifiers return. -/
inductive SigErr where
  | algorithmNotAvailable
  | invalidSignature
deriving DecidableEq

/-- External crypto capability bound inside an `hmacSigner`: availability
of the hash (`crypto.Hash.Available`) and the keyed digest
`hmac.New(hash.New, key).Sum` over the data, for the key copied at
construction. -/
structure MacCap where
  available : Bool
  digest : List Nat → List Nat

/-- Source `(*hmacSigner).Verify` (part_002, lines 42–56): recompute the
keyed digest and compare (`hmac.Equal`). -/
def hmacVerify (c : MacCap) (sg data : List Nat) : Option SigErr :=
  if !c.available then some .algorithmNotAvailable
  else if sg = c.digest data then none
  else some .invalidSignature

/-- Source `(*hmacSigner).Sign` (part_002, lines 30–40). -/
def hmacSign (c : MacCap) (data : List Nat) : Option (List Nat) :=
  if !c.available then none else some (c.digest data)

/-- Source `HMAC256` (part_002, lines 58–66): an `hmacSigner` always has
the `KeyID()` method (value receiver, line 26), so the key-id capability is
present even when `keyID = ""`. -/
def HMAC256 (c : MacCap) (keyID : String) : SignerM SigErr :=
  { algorithm := "HS256", keyID := some keyID,
    verify := hmacVerify c, sign := hmacSign c }

/-- Source `HMAC384` (part_002, lines 68–76). -/
def HMAC384 (c : MacCap) (keyID : String) : SignerM SigErr :=
  { algorithm := "HS384", keyID := some keyID,
    verify := hmacVerify c, sign := hmacSign c }

/-- Source `HMAC512` (part_002, lines 78–86). -/
def HMAC512 (c : MacCap) (keyID : String) : SignerM SigErr :=
  { algorithm := "HS512", keyID := some keyID,
    verify := hmacVerify c, sign := hmacSign c }

/-- External crypto capability bound inside an `rsaVerifier`: hash
availability and `rsa.VerifyPKCS1v15(pub, hash, hashed(data), sig) == nil`. -/
structure RsaCap where
  available : Bool
  check : List Nat → List Nat → Bool

/-- Source `(*rsaVerifier).Verify` (src/rsa.go, lines 68–82). -/
def rsaVerify (c : RsaCap) (sg data : List Nat) : Option SigErr :=
  if !c.available then some .algorithmNotAvailable
  else if c.check sg data then none
  else some .invalidSignature

/-- Source `RSA256Verifier` (src/rsa.go, lines 97–105): an `rsaVerifier`
has no `KeyID()` method, so the key-id capability is absent. -/
def RSA256Verifier (c : RsaCap) : VerifierM SigErr :=
  { algorithm := "RS256", keyID := none, verify := rsaVerify c }

/-- Source `RSA384Verifier` (src/rsa.go, lines 120–128). -/
def RSA384Verifier (c : RsaCap) : VerifierM SigErr :=
  { algorithm := "RS384", keyID := none, verify := rsaVerify c }

/-- Source `RSA512Verifier` (src/rsa.go, lines 143–151). -/
def RSA512Verifier (c : RsaCap) : VerifierM SigErr :=
  { algorithm := "RS512", keyID := none, verify := rsaVerify c }

/-! ## Concrete fixtures used to exercise the model -/

/-- A JSON capability whose parses all succeed with the given constant
views; the claims unmarshal writes `c1` into the target. -/
def constCodec (h : HeaderV) (lt : Lifetime) (c1 : Nat) : JsonCodec Nat :=
  { parseHeader := fun _ => some h
    updateClaims := fun _ _ => some c1
    parseLifetime := fun _ => some lt
    serializeHeader := fun _ _ => some [0]
    serializeClaims := fun _ => some [1] }

/-- A verifier fixture whose `Verify` always succeeds. -/
def constVerifier (alg : String) (kid : Option String) : VerifierM Unit :=
  { algorithm := alg, keyID := kid, verify := fun _ _ => none }

/-- The byte string `"AA.AA.AA"`: three valid two-character base64url
segments. -/
def token3 : List Nat := [65, 65, 46, 65, 65, 46, 65, 65]

/-- A keyed-digest fixture. -/
def testMac : MacCap := ⟨true, fun _ => [1]⟩

/-- An RSA-check fixture. -/
def testRsa : RsaCap := ⟨true, fun _ _ => true⟩

/-- A JSON capability fixture that round-trips: claims are one byte. -/
def rtCodec : JsonCodec Nat :=
  { parseHeader := fun b => if b = [10] then some ⟨"HS256", "k"⟩ else none
    updateClaims := fun b _ => match b with | [n] => some n | _ => none
    parseLifetime := fun _ => some ⟨0, 0⟩
    serializeHeader := fun _ _ => some [10]
    serializeClaims := fun n => some [n] }

/-! ## Alphabet facts -/

theorem b64index_b64char : ∀ n, n < 64 → b64index (b64char n) = some n := by
  decide

theorem b64char_ne_pad : ∀ n, n < 64 → b64char n ≠ 61 := by
  decide

theorem b64char_ne_dot : ∀ n, n < 64 → b64char n ≠ 46 := by
  decide

/-! ## Round trip: padded encode then decode -/

theorem decB64_encB64 (B : List Nat) (hB : ∀ b ∈ B, b < 256) :
    decB64 (encB64 B) = some B := by
  induction B using encB64.induct with
  | case1 b0 b1 b2 rest ih =>
    have h0 : b0 < 256 := hB b0 (by simp)
    have h1 : b1 < 256 := hB b1 (by simp)
    have h2 : b2 < 256 := hB b2 (by simp)
    have e0 : b0 / 4 < 64 := by omega
    have e1 : b0 % 4 * 16 + b1 / 16 < 64 := by omega
    have e2 : b1 % 16 * 4 + b2 / 64 < 64 := by omega
    have e3 : b2 % 64 < 64 := by omega
    have ihr := ih (fun b hb => hB b (by simp [hb]))
    rw [encB64]
    rw [decB64]
    rw [b64index_b64char _ e0, b64index_b64char _ e1, b64index_b64char _ e2,
      b64index_b64char _ e3]
    simp only [if_neg (b64char_ne_pad _ e2), if_neg (b64char_ne_pad _ e3), ihr]
    congr 1
    have r0 : (b0 / 4) * 4 + (b0 % 4 * 16 + b1 / 16) / 16 = b0 := by omega
    have r1 : (b0 % 4 * 16 + b1 / 16) % 16 * 16 + (b1 % 16 * 4 + b2 / 64) / 4 = b1 := by
      omega
    have r2 : (b1 % 16 * 4 + b2 / 64) % 4 * 64 + b2 % 64 = b2 := by omega
    rw [r0, r1, r2]
  | case2 b0 b1 =>
    have h0 : b0 < 256 := hB b0 (by simp)
    have h1 : b1 < 256 := hB b1 (by simp)
    have e0 : b0 / 4 < 64 := by omega
    have e1 : b0 % 4 * 16 + b1 / 16 < 64 := by omega
    have e2 : b1 % 16 * 4 < 64 := by omega
    rw [encB64, decB64]
    rw [b64index_b64char _ e0, b64index_b64char _ e1, b64index_b64char _ e2]
    have r0 : (b0 / 4) * 4 + (b0 % 4 * 16 + b1 / 16) / 16 = b0 := by omega
    have r1 : (b0 % 4 * 16 + b1 / 16) % 16 * 16 + (b1 % 16 * 4) / 4 = b1 := by omega
    simp only [if_neg (b64char_ne_pad _ e2), if_pos trivial, and_self, ite_true, r0, r1]
  | case3 b0 =>
    have h0 : b0 < 256 := hB b0 (by simp)
    have e0 : b0 / 4 < 64 := by omega
    have e1 : b0 % 4 * 16 < 64 := by omega
    rw [encB64, decB64]
    rw [b64index_b64char _ e0, b64index_b64char _ e1]
    have r0 : (b0 / 4) * 4 + (b0 % 4 * 16) / 16 = b0 := by omega
    simp
    omega
  | case4 => rfl

/-! ## Stripping and restoring padding -/

theorem trimRightEq_concat_pad (l : List Nat) : trimRightEq (l ++ [61]) = trimRightEq l :=
  List.rdropWhile_concat_pos _ _ _ (by simp)

theorem trimRightEq_concat_ne (l : List Nat) (x : Nat) (hx : x ≠ 61) :
    trimRightEq (l ++ [x]) = l ++ [x] :=
  List.rdropWhile_concat_neg _ _ _ (by simp [hx])

theorem trimRightEq_append (l m : List Nat) :
    trimRightEq (l ++ m) =
      if trimRightEq m = [] then trimRightEq l else l ++ trimRightEq m := by
  show List.rdropWhile _ _ = _
  rw [List.rdropWhile, List.reverse_append, List.dropWhile_append]
  by_cases h : trimRightEq m = []
  · have he : (m.reverse.dropWhile (fun c => c == 61)).isEmpty = true := by
      have : m.reverse.dropWhile (fun c => c == 61) = [] := by
        have := congrArg List.reverse h
        simpa [trimRightEq, List.rdropWhile] using this
      simp [this]
    rw [if_pos he, if_pos h]
    rfl
  · have he : (m.reverse.dropWhile (fun c => c == 61)).isEmpty = false := by
      rcases hd : m.reverse.dropWhile (fun c => c == 61) with _ | ⟨a, t⟩
      · exact absurd (by simp [trimRightEq, List.rdropWhile, hd]) h
      · simp [hd]
    rw [if_neg (by simp [he]), if_neg h]
    simp [trimRightEq, List.rdropWhile]

theorem encB64_head (B : List Nat) (hne : B ≠ []) (hB : ∀ b ∈ B, b < 256) :
    ∃ n t, n < 64 ∧ encB64 B = b64char n :: t := by
  match B with
  | [] => exact absurd rfl hne
  | [b0] =>
    exact ⟨b0 / 4, _, by have := hB b0 (by simp); omega, rfl⟩
  | [b0, b1] =>
    exact ⟨b0 / 4, _, by have := hB b0 (by simp); omega, rfl⟩
  | b0 :: b1 :: b2 :: rest =>
    exact ⟨b0 / 4, _, by have := hB b0 (by simp); omega, rfl⟩

theorem trimRightEq_encB64_ne_nil (B : List Nat) (hne : B ≠ [])
    (hB : ∀ b ∈ B, b < 256) : trimRightEq (encB64 B) ≠ [] := by
  obtain ⟨n, t, hn, he⟩ := encB64_head B hne hB
  intro h
  have hall := List.rdropWhile_eq_nil_iff.mp h (b64char n) (by rw [he]; simp)
  have : b64char n = 61 := by simpa using hall
  exact b64char_ne_pad n hn this

theorem fixPadding_cons4 (c0 c1 c2 c3 : Nat) (t : List Nat) :
    fixPadding (c0 :: c1 :: c2 :: c3 :: t) = c0 :: c1 :: c2 :: c3 :: fixPadding t := by
  unfold fixPadding
  have hm : (c0 :: c1 :: c2 :: c3 :: t).length % 4 = t.length % 4 := by
    simp [Nat.add_mod_right]
    omega
  rw [hm]
  by_cases h : t.length % 4 > 0
  · rw [if_pos h, if_pos h]
    simp
  · rw [if_neg h, if_neg h]

/-- The padding stripped by the source `encode` is exactly restored by
`fixPadding`. -/
theorem fixPadding_encode (B : List Nat) (hB : ∀ b ∈ B, b < 256) :
    fixPadding (encode B) = encB64 B := by
  unfold encode
  induction B using encB64.induct with
  | case1 b0 b1 b2 rest ih =>
    have h2 : b2 < 256 := hB b2 (by simp)
    have e3 : b2 % 64 < 64 := by omega
    have hg : encB64 (b0 :: b1 :: b2 :: rest) =
        [b64char (b0 / 4), b64char (b0 % 4 * 16 + b1 / 16),
          b64char (b1 % 16 * 4 + b2 / 64), b64char (b2 % 64)] ++ encB64 rest := by
      rw [encB64]; rfl
    rw [hg, trimRightEq_append]
    by_cases hr : rest = []
    · subst hr
      have : trimRightEq (encB64 []) = [] := rfl
      rw [if_pos this]
      have h4 : trimRightEq [b64char (b0 / 4), b64char (b0 % 4 * 16 + b1 / 16),
          b64char (b1 % 16 * 4 + b2 / 64), b64char (b2 % 64)] =
          [b64char (b0 / 4), b64char (b0 % 4 * 16 + b1 / 16),
            b64char (b1 % 16 * 4 + b2 / 64), b64char (b2 % 64)] := by
        have := trimRightEq_concat_ne
          [b64char (b0 / 4), b64char (b0 % 4 * 16 + b1 / 16),
            b64char (b1 % 16 * 4 + b2 / 64)] (b64char (b2 % 64)) (b64char_ne_pad _ e3)
        simpa using this
      rw [h4]
      simp [fixPadding, encB64]
    · have hne := trimRightEq_encB64_ne_nil rest hr (fun b hb => hB b (by simp [hb]))
      rw [if_neg hne]
      have ihr := ih (fun b hb => hB b (by simp [hb]))
      simp only [List.cons_append, List.nil_append]
      rw [fixPadding_cons4]
      rw [ihr]
  | case2 b0 b1 =>
    have h1 : b1 < 256 := hB b1 (by simp)
    have e2 : b1 % 16 * 4 < 64 := by omega
    have hg : encB64 [b0, b1] =
        ([b64char (b0 / 4), b64char (b0 % 4 * 16 + b1 / 16)] ++
          [b64char (b1 % 16 * 4)]) ++ [61] := by
      rw [encB64]; rfl
    rw [hg, trimRightEq_concat_pad,
      trimRightEq_concat_ne _ _ (b64char_ne_pad _ e2)]
    simp [fixPadding, List.replicate]
  | case3 b0 =>
    have h0 : b0 < 256 := hB b0 (by simp)
    have e1 : b0 % 4 * 16 < 64 := by omega
    have hg : encB64 [b0] =
        (([b64char (b0 / 4)] ++ [b64char (b0 % 4 * 16)]) ++ [61]) ++ [61] := by
      rw [encB64]; rfl
    rw [hg, trimRightEq_concat_pad, trimRightEq_concat_pad,
      trimRightEq_concat_ne _ _ (b64char_ne_pad _ e1)]
    simp [fixPadding, List.replicate]
  | case4 => rfl

/-- Base64url round trip as performed by the source: strip padding on
encode, restore it with `fixPadding`, decode. -/
theorem b64_roundtrip (B : List Nat) (hB : ∀ b ∈ B, b < 256) :
    decB64 (fixPadding (encode B)) = some B := by
  rw [fixPadding_encode B hB]
  exact decB64_encB64 B hB

/-! ## Encoded segments never contain the separator -/

theorem mem_encB64 (B : List Nat) (hB : ∀ b ∈ B, b < 256) :
    ∀ c ∈ encB64 B, (∃ n, n < 64 ∧ c = b64char n) ∨ c = 61 := by
  induction B using encB64.induct with
  | case1 b0 b1 b2 rest ih =>
    have h0 : b0 < 256 := hB b0 (by simp)
    have h1 : b1 < 256 := hB b1 (by simp)
    have h2 : b2 < 256 := hB b2 (by simp)
    intro c hc
    rw [encB64] at hc
    simp only [List.mem_cons] at hc
    rcases hc with h | h | h | h | h
    · exact Or.inl ⟨b0 / 4, by omega, h⟩
    · exact Or.inl ⟨b0 % 4 * 16 + b1 / 16, by omega, h⟩
    · exact Or.inl ⟨b1 % 16 * 4 + b2 / 64, by omega, h⟩
    · exact Or.inl ⟨b2 % 64, by omega, h⟩
    · exact ih (fun b hb => hB b (by simp [hb])) c h
  | case2 b0 b1 =>
    have h0 : b0 < 256 := hB b0 (by simp)
    have h1 : b1 < 256 := hB b1 (by simp)
    intro c hc
    rw [encB64] at hc
    simp only [List.mem_cons, List.not_mem_nil, or_false] at hc
    rcases hc with h | h | h | h
    · exact Or.inl ⟨b0 / 4, by omega, h⟩
    · exact Or.inl ⟨b0 % 4 * 16 + b1 / 16, by omega, h⟩
    · exact Or.inl ⟨b1 % 16 * 4, by omega, h⟩
    · exact Or.inr h
  | case3 b0 =>
    have h0 : b0 < 256 := hB b0 (by simp)
    intro c hc
    rw [encB64] at hc
    simp only [List.mem_cons, List.not_mem_nil, or_false] at hc
    rcases hc with h | h | h | h
    · exact Or.inl ⟨b0 / 4, by omega, h⟩
    · exact Or.inl ⟨b0 % 4 * 16, by omega, h⟩
    · exact Or.inr h
    · exact Or.inr h
  | case4 =>
    intro c hc
    simp [encB64] at hc

theorem encode_no_dot (B : List Nat) (hB : ∀ b ∈ B, b < 256) : 46 ∉ encode B := by
  intro hmem
  have hsub : encode B ⊆ encB64 B := by
    intro x hx
    unfold encode trimRightEq List.rdropWhile at hx
    rw [List.mem_reverse] at hx
    have hs := (List.dropWhile_suffix (fun c => c == 61)).sublist.subset hx
    rw [List.mem_reverse] at hs
    exact hs
  rcases mem_encB64 B hB 46 (hsub hmem) with ⟨n, hn, h⟩ | h
  · exact b64char_ne_dot n hn h.symm
  · omega

theorem splitDot_ne_nil (l : List Nat) : splitDot l ≠ [] := by
  induction l with
  | nil => simp [splitDot]
  | cons c rest ih =>
    rw [splitDot]
    by_cases h : c = 46
    · simp [h]
    · rw [if_neg h]
      rcases hs : splitDot rest with _ | ⟨a, t⟩
      · simp
      · simp

theorem joinDot_splitDot (l : List Nat) : joinDot (splitDot l) = l := by
  induction l with
  | nil => rfl
  | cons c rest ih =>
    rw [splitDot]
    by_cases h : c = 46
    · rw [if_pos h]
      rcases hs : splitDot rest with _ | ⟨a, t⟩
      · exact absurd hs (splitDot_ne_nil rest)
      · rw [hs] at ih
        subst h
        rw [← ih, joinDot]
        · simp
        · simp
    · rw [if_neg h]
      rcases hs : splitDot rest with _ | ⟨a, t⟩
      · exact absurd hs (splitDot_ne_nil rest)
      · rw [hs] at ih
        rcases t with _ | ⟨b, t'⟩
        · simpa [joinDot] using congrArg (c :: ·) ih
        · rw [joinDot] at ih ⊢
          · rw [List.cons_append, ih]
          · simp
          · simp

theorem splitDot_no_dot (A : List Nat) (hA : 46 ∉ A) : splitDot A = [A] := by
  induction A with
  | nil => rfl
  | cons c rest ih =>
    have hc : c ≠ 46 := fun h => hA (by simp [h])
    rw [splitDot, if_neg hc, ih (fun h => hA (by simp [h]))]

theorem splitDot_append_dot (A B : List Nat) (hA : 46 ∉ A) :
    splitDot (A ++ 46 :: B) = A :: splitDot B := by
  induction A with
  | nil => simp [splitDot]
  | cons c rest ih =>
    have hc : c ≠ 46 := fun h => hA (by simp [h])
    rw [List.cons_append, splitDot, if_neg hc,
      ih (fun h => hA (by simp [h]))]

theorem splitDot_three (A B C : List Nat) (hA : 46 ∉ A) (hB : 46 ∉ B) (hC : 46 ∉ C) :
    splitDot (A ++ 46 :: (B ++ 46 :: C)) = [A, B, C] := by
  rw [splitDot_append_dot _ _ hA, splitDot_append_dot _ _ hB, splitDot_no_dot _ hC]

/-! ## Facts about the decoder pipeline -/

theorem kidMismatch_iff (vkid : Option String) (hkid : String) :
    kidMismatch vkid hkid = true ↔ ∃ k, vkid = some k ∧ hkid ≠ "" ∧ k ≠ hkid := by
  cases vkid <;> simp [kidMismatch]

theorem kidMismatch_getD (o : Option String) : kidMismatch o (o.getD "") = false := by
  cases o <;> simp [kidMismatch]

theorem beforeSign_eq (SI E : List Nat) :
    beforeSign (SI ++ 46 :: E) E = SI := by
  unfold beforeSign
  have h : (SI ++ 46 :: E).length - E.length - 1 = SI.length := by
    simp only [List.length_append, List.length_cons]
    omega
  rw [h]
  exact List.take_left' rfl

/-! ## C7 and C8 -/

/-- C7: for every byte sequence `B`, base64url-decoding (after padding
restoration via `fixPadding`) the padding-stripped base64url encoding of
`B` (the source `encode`) yields exactly `B`. -/
theorem c7_base64url_roundtrip (B : List Nat) (hB : ∀ b ∈ B, b < 256) :
    decB64 (fixPadding (encode B)) = some B :=
  b64_roundtrip B hB

theorem c7_base64url_roundtrip_witness :
    decB64 (fixPadding (encode [104, 105, 255, 0])) = some [104, 105, 255, 0] :=
  c7_base64url_roundtrip [104, 105, 255, 0] (by decide)

theorem decodeClaims_three_ne_malformed {α ε : Type} (codec : JsonCodec α) (now : Int)
    (token : List Nat) (v : VerifierM ε) (claims0 : α) (c0 c1 c2 : List Nat)
    (h : splitDot token = [c0, c1, c2]) :
    (DecodeClaims codec now token v claims0).1 ≠ some DErr.malformedToken := by
  simp only [DecodeClaims, h]
  repeat' split
  all_goals simp

/-- C8: `DecodeClaims` returns `ErrMalformedToken` exactly when splitting
the token on `'.'` does not yield three segments. -/
theorem c8_malformed_iff {α ε : Type} (codec : JsonCodec α) (now : Int)
    (token : List Nat) (v : VerifierM ε) (claims0 : α) :
    (DecodeClaims codec now token v claims0).1 = some DErr.malformedToken ↔
      (splitDot token).length ≠ 3 := by
  rcases h : splitDot token with _ | ⟨c0, t0⟩
  · exact absurd h (splitDot_ne_nil token)
  rcases t0 with _ | ⟨c1, t1⟩
  · simp [DecodeClaims, h]
  rcases t1 with _ | ⟨c2, t2⟩
  · simp [DecodeClaims, h]
  rcases t2 with _ | ⟨c3, t3⟩
  · have hne := decodeClaims_three_ne_malformed codec now token v claims0 c0 c1 c2 h
    simp [hne, h]
  · simp [DecodeClaims, h]

/-! ## C2: algorithm mismatch -/

/-- C2: for a well-formed token (three segments, decodable header and
claims) whose header `alg` differs from the verifier's `Algorithm()`,
`DecodeClaims` returns `ErrInvalidSigner`; moreover the result is the same
for every `Verify` function, i.e. the check happens before the signature
is decoded or verified. -/
theorem c2_alg_mismatch {α ε : Type} (codec : JsonCodec α) (now : Int) (token : List Nat)
    (v : VerifierM ε) (claims0 : α) (c0 c1 c2 hB : List Nat) (header : HeaderV)
    (cB : List Nat) (claims1 : α) (lt : Lifetime)
    (hsplit : splitDot token = [c0, c1, c2])
    (hh : decB64 (fixPadding c0) = some hB)
    (hph : codec.parseHeader hB = some header)
    (hc : decB64 (fixPadding c1) = some cB)
    (huc : codec.updateClaims cB claims0 = some claims1)
    (hpl : codec.parseLifetime cB = some lt)
    (halg : header.alg ≠ v.algorithm) :
    (DecodeClaims codec now token v claims0).1 = some DErr.invalidSigner ∧
      ∀ f, DecodeClaims codec now token { v with verify := f } claims0 =
        DecodeClaims codec now token v claims0 := by
  constructor
  · simp [DecodeClaims, hsplit, hh, hph, hc, huc, hpl, halg]
  · intro f
    simp [DecodeClaims, hsplit, hh, hph, hc, huc, hpl, halg]

theorem c2_alg_mismatch_witness :
    (DecodeClaims (constCodec ⟨"HS256", ""⟩ ⟨0, 0⟩ 7) 0 token3
        (constVerifier "HS384" none) 0).1 = some DErr.invalidSigner ∧
      ∀ f, DecodeClaims (constCodec ⟨"HS256", ""⟩ ⟨0, 0⟩ 7) 0 token3
          { constVerifier "HS384" none with verify := f } 0 =
        DecodeClaims (constCodec ⟨"HS256", ""⟩ ⟨0, 0⟩ 7) 0 token3
          (constVerifier "HS384" none) 0 :=
  c2_alg_mismatch (constCodec ⟨"HS256", ""⟩ ⟨0, 0⟩ 7) 0 token3
    (constVerifier "HS384" none) 0 [65, 65] [65, 65] [65, 65] [0] ⟨"HS256", ""⟩
    [0] 7 ⟨0, 0⟩ (by decide) (by decide) rfl (by decide) rfl rfl (by decide)

/-! ## C3: key-id policy -/

theorem decodeClaims_tail_ne_invalidSigner {α ε : Type} (now : Int)
    (token : List Nat) (v : VerifierM ε) (claims1 : α) (c2 : List Nat) (lt : Lifetime) :
    (match decB64 (fixPadding c2) with
      | none => ((some DErr.b64SigErr : Option (DErr ε)), claims1)
      | some sg =>
        match v.verify sg (beforeSign token c2) with
        | some e => (some (DErr.verifyErr e), claims1)
        | none =>
          if lt.exp ≠ 0 ∧ lt.exp < now then (some DErr.expired, claims1)
          else if lt.nbf ≠ 0 ∧ lt.nbf > now then (some DErr.notReady, claims1)
          else (none, claims1)).1 ≠ some DErr.invalidSigner := by
  repeat' split
  all_goals simp

/-- C3: with a well-formed token whose algorithm matches, `DecodeClaims`
returns `ErrInvalidSigner` exactly when the verifier exposes the key-id
capability, the header's `kid` is non-empty, and the two key ids differ;
a verifier without a key id, or a header without one, never triggers the
mismatch. -/
theorem c3_kid_policy {α ε : Type} (codec : JsonCodec α) (now : Int) (token : List Nat)
    (v : VerifierM ε) (claims0 : α) (c0 c1 c2 hB : List Nat) (header : HeaderV)
    (cB : List Nat) (claims1 : α) (lt : Lifetime)
    (hsplit : splitDot token = [c0, c1, c2])
    (hh : decB64 (fixPadding c0) = some hB)
    (hph : codec.parseHeader hB = some header)
    (hc : decB64 (fixPadding c1) = some cB)
    (huc : codec.updateClaims cB claims0 = some claims1)
    (hpl : codec.parseLifetime cB = some lt)
    (halg : header.alg = v.algorithm) :
    (DecodeClaims codec now token v claims0).1 = some DErr.invalidSigner ↔
      ∃ k, v.keyID = some k ∧ header.kid ≠ "" ∧ k ≠ header.kid := by
  rw [← kidMismatch_iff]
  by_cases hk : kidMismatch v.keyID header.kid = true
  · simp [DecodeClaims, hsplit, hh, hph, hc, huc, hpl, halg, hk]
  · have hk' : kidMismatch v.keyID header.kid = false := by
      cases h : kidMismatch v.keyID header.kid
      · rfl
      · exact absurd h hk
    have htail := decodeClaims_tail_ne_invalidSigner now token v claims1 c2 lt
    simp only [DecodeClaims, hsplit, hh, hph, hc, huc, hpl, halg, hk', ne_eq,
      not_true_eq_false, if_false, Bool.false_eq_true, iff_false]
    exact htail

theorem c3_kid_policy_witness :
    ((DecodeClaims (constCodec ⟨"HS256", "k1"⟩ ⟨0, 0⟩ 7) 0 token3
        (constVerifier "HS256" (some "k2")) 0).1 = some DErr.invalidSigner ↔
      ∃ k, (constVerifier "HS256" (some "k2")).keyID = some k ∧
        (HeaderV.mk "HS256" "k1").kid ≠ "" ∧ k ≠ (HeaderV.mk "HS256" "k1").kid) ∧
    ((DecodeClaims (constCodec ⟨"HS256", "k1"⟩ ⟨0, 0⟩ 7) 0 token3
        (constVerifier "HS256" none) 0).1 = some DErr.invalidSigner ↔
      ∃ k, (constVerifier "HS256" none).keyID = some k ∧
        (HeaderV.mk "HS256" "k1").kid ≠ "" ∧ k ≠ (HeaderV.mk "HS256" "k1").kid) :=
  ⟨c3_kid_policy (constCodec ⟨"HS256", "k1"⟩ ⟨0, 0⟩ 7) 0 token3
      (constVerifier "HS256" (some "k2")) 0 [65, 65] [65, 65] [65, 65] [0]
      ⟨"HS256", "k1"⟩ [0] 7 ⟨0, 0⟩ (by decide) (by decide) rfl (by decide) rfl rfl
      (by decide),
    c3_kid_policy (constCodec ⟨"HS256", "k1"⟩ ⟨0, 0⟩ 7) 0 token3
      (constVerifier "HS256" none) 0 [65, 65] [65, 65] [65, 65] [0]
      ⟨"HS256", "k1"⟩ [0] 7 ⟨0, 0⟩ (by decide) (by decide) rfl (by decide) rfl rfl
      (by decide)⟩

/-! ## C6: temporal checks -/

/-- C6: for a token that passes all prior checks (three segments, header
and claims decode, algorithm match, key-id match, signature decode and
verification), `DecodeClaims` returns `ErrExpired` exactly when `exp` is
non-zero and strictly less than the current Unix time, `ErrNotReady`
exactly when that is not the case and `nbf` is non-zero and strictly
greater than now, and succeeds exactly when neither holds; `exp = now` and
`nbf = now` are accepted and a zero value is unchecked. -/
theorem c6_temporal {α ε : Type} (codec : JsonCodec α) (now : Int) (token : List Nat)
    (v : VerifierM ε) (claims0 : α) (c0 c1 c2 hB : List Nat) (header : HeaderV)
    (cB : List Nat) (claims1 : α) (lt : Lifetime) (sg : List Nat)
    (hsplit : splitDot token = [c0, c1, c2])
    (hh : decB64 (fixPadding c0) = some hB)
    (hph : codec.parseHeader hB = some header)
    (hc : decB64 (fixPadding c1) = some cB)
    (huc : codec.updateClaims cB claims0 = some claims1)
    (hpl : codec.parseLifetime cB = some lt)
    (halg : header.alg = v.algorithm)
    (hkid : kidMismatch v.keyID header.kid = false)
    (hsg : decB64 (fixPadding c2) = some sg)
    (hver : v.verify sg (beforeSign token c2) = none) :
    ((DecodeClaims codec now token v claims0).1 = some DErr.expired ↔
        lt.exp ≠ 0 ∧ lt.exp < now) ∧
      ((DecodeClaims codec now token v claims0).1 = some DErr.notReady ↔
        ¬(lt.exp ≠ 0 ∧ lt.exp < now) ∧ lt.nbf ≠ 0 ∧ now < lt.nbf) ∧
      (DecodeClaims codec now token v claims0 = (none, claims1) ↔
        ¬(lt.exp ≠ 0 ∧ lt.exp < now) ∧ ¬(lt.nbf ≠ 0 ∧ now < lt.nbf)) := by
  by_cases he : lt.exp ≠ 0 ∧ lt.exp < now
  · simp [DecodeClaims, hsplit, hh, hph, hc, huc, hpl, halg, hkid, hsg, hver, he]
  · by_cases hn : lt.nbf ≠ 0 ∧ now < lt.nbf
    · simp [DecodeClaims, hsplit, hh, hph, hc, huc, hpl, halg, hkid, hsg, hver, he, hn]
    · simp [DecodeClaims, hsplit, hh, hph, hc, huc, hpl, halg, hkid, hsg, hver, he, hn]

theorem c6_temporal_witness :
    (((DecodeClaims (constCodec ⟨"HS256", ""⟩ ⟨9, 0⟩ 7) 10 token3
        (constVerifier "HS256" none) 0).1 = some DErr.expired ↔
        (9 : Int) ≠ 0 ∧ (9 : Int) < 10) ∧
      ((DecodeClaims (constCodec ⟨"HS256", ""⟩ ⟨9, 0⟩ 7) 10 token3
        (constVerifier "HS256" none) 0).1 = some DErr.notReady ↔
        ¬((9 : Int) ≠ 0 ∧ (9 : Int) < 10) ∧ (0 : Int) ≠ 0 ∧ (10 : Int) < 0) ∧
      (DecodeClaims (constCodec ⟨"HS256", ""⟩ ⟨9, 0⟩ 7) 10 token3
        (constVerifier "HS256" none) 0 = (none, 7) ↔
        ¬((9 : Int) ≠ 0 ∧ (9 : Int) < 10) ∧ ¬((0 : Int) ≠ 0 ∧ (10 : Int) < 0))) ∧
    (((DecodeClaims (constCodec ⟨"HS256", ""⟩ ⟨10, 10⟩ 7) 10 token3
        (constVerifier "HS256" none) 0).1 = some DErr.expired ↔
        (10 : Int) ≠ 0 ∧ (10 : Int) < 10) ∧
      ((DecodeClaims (constCodec ⟨"HS256", ""⟩ ⟨10, 10⟩ 7) 10 token3
        (constVerifier "HS256" none) 0).1 = some DErr.notReady ↔
        ¬((10 : Int) ≠ 0 ∧ (10 : Int) < 10) ∧ (10 : Int) ≠ 0 ∧ (10 : Int) < 10) ∧
      (DecodeClaims (constCodec ⟨"HS256", ""⟩ ⟨10, 10⟩ 7) 10 token3
        (constVerifier "HS256" none) 0 = (none, 7) ↔
        ¬((10 : Int) ≠ 0 ∧ (10 : Int) < 10) ∧ ¬((10 : Int) ≠ 0 ∧ (10 : Int) < 10))) :=
  ⟨c6_temporal (constCodec ⟨"HS256", ""⟩ ⟨9, 0⟩ 7) 10 token3
      (constVerifier "HS256" none) 0 [65, 65] [65, 65] [65, 65] [0] ⟨"HS256", ""⟩
      [0] 7 ⟨9, 0⟩ [0] (by decide) (by decide) rfl (by decide) rfl rfl (by decide)
      (by decide) (by decide) rfl,
    c6_temporal (constCodec ⟨"HS256", ""⟩ ⟨10, 10⟩ 7) 10 token3
      (constVerifier "HS256" none) 0 [65, 65] [65, 65] [65, 65] [0] ⟨"HS256", ""⟩
      [0] 7 ⟨10, 10⟩ [0] (by decide) (by decide) rfl (by decide) rfl rfl (by decide)
      (by decide) (by decide) rfl⟩

/-! ## C5: the verified bytes are the signed bytes -/

/-- C5: for any token that `Encode` produces, `DecodeClaims` splits it into
exactly the three segments `Encode` concatenated, and the `beforeSign`
slice it hands to `Verifier.Verify` (original token minus the trailing dot
and signature segment) is byte-identical to the signing input
`base64url(header) ++ "." ++ base64url(claims)` that `Encode` passed to
`Signer.Sign` — no re-serialization. -/
theorem c5_signing_input {α ε : Type} (codec : JsonCodec α) (S : SignerM ε) (C : α)
    (hJ cJ sg token : List Nat)
    (hH : codec.serializeHeader S.algorithm (S.keyID.getD "") = some hJ)
    (hC : codec.serializeClaims C = some cJ)
    (hbH : ∀ b ∈ hJ, b < 256) (hbC : ∀ b ∈ cJ, b < 256) (hbS : ∀ b ∈ sg, b < 256)
    (hsig : S.sign (encode hJ ++ 46 :: encode cJ) = some sg)
    (htok : Encode codec S C = some token) :
    splitDot token = [encode hJ, encode cJ, encode sg] ∧
      beforeSign token (encode sg) = encode hJ ++ 46 :: encode cJ := by
  have htok' : token = (encode hJ ++ 46 :: encode cJ) ++ 46 :: encode sg := by
    have : Encode codec S C = some ((encode hJ ++ 46 :: encode cJ) ++ 46 :: encode sg) := by
      simp [Encode, hH, hC, hsig]
    rw [this] at htok
    exact (Option.some_injective _ htok).symm
  subst htok'
  constructor
  · have hassoc : (encode hJ ++ 46 :: encode cJ) ++ 46 :: encode sg =
        encode hJ ++ 46 :: (encode cJ ++ 46 :: encode sg) := by
      simp
    rw [hassoc]
    exact splitDot_three _ _ _ (encode_no_dot hJ hbH) (encode_no_dot cJ hbC)
      (encode_no_dot sg hbS)
  · exact beforeSign_eq _ _

theorem c5_signing_input_witness :
    splitDot ((encode [10] ++ 46 :: encode [1]) ++ 46 :: encode [1]) =
        [encode [10], encode [1], encode [1]] ∧
      beforeSign ((encode [10] ++ 46 :: encode [1]) ++ 46 :: encode [1]) (encode [1]) =
        encode [10] ++ 46 :: encode [1] :=
  c5_signing_input rtCodec (HMAC256 ⟨true, fun _ => [1]⟩ "k") 1
    [10] [1] [1] ((encode [10] ++ 46 :: encode [1]) ++ 46 :: encode [1])
    rfl rfl (by decide) (by decide) (by decide) (by decide) (by decide)

/-! ## C10: decode buffer bound -/

theorem maxlen_le_aux (a : List (List Nat)) (acc : Nat) :
    acc ≤ a.foldl (fun m b => if b.length > m then b.length else m) acc ∧
      ∀ b ∈ a, b.length ≤ a.foldl (fun m b => if b.length > m then b.length else m) acc := by
  induction a generalizing acc with
  | nil => simp
  | cons x xs ih =>
    simp only [List.foldl_cons]
    obtain ⟨ha, hb⟩ := ih (if x.length > acc then x.length else acc)
    refine ⟨le_trans (by split <;> omega) ha, ?_⟩
    intro b hbmem
    rcases List.mem_cons.mp hbmem with rfl | hmem
    · exact le_trans (by split <;> omega) ha
    · exact hb b hmem

theorem length_le_maxlen (chunks : List (List Nat)) (c : List Nat) (hc : c ∈ chunks) :
    c.length ≤ maxlen chunks :=
  (maxlen_le_aux chunks 0).2 c hc

theorem fixPadding_length_le (c : List Nat) : (fixPadding c).length ≤ c.length + 3 := by
  unfold fixPadding
  split
  · simp only [List.length_append, List.length_replicate]
    omega
  · omega

theorem decB64_length (l : List Nat) : ∀ bs, decB64 l = some bs → bs.length ≤ l.length / 4 * 3 := by
  induction l using decB64.induct with
  | case1 c0 c1 c3 rest s0 s1 h1 h0 hcr =>
    obtain ⟨rfl, rfl⟩ := hcr
    intro bs h
    simp only [decB64, h0, h1] at h
    simp at h
    simp [← h]
  | case2 c0 c1 c3 rest s0 s1 h1 h0 hcr =>
    intro bs h
    simp only [decB64, h0, h1] at h
    simp [hcr] at h
  | case3 c0 c1 c2 s0 s1 h1 h0 hc2 s2 h2 =>
    intro bs h
    simp only [decB64, h0, h1, h2] at h
    simp [hc2] at h
    simp [← h]
  | case4 c0 c1 c2 rest s0 s1 h1 h0 hc2 s2 h2 hrest =>
    intro bs h
    simp only [decB64, h0, h1, h2] at h
    simp [hc2, hrest] at h
  | case5 c0 c1 c2 c3 rest s0 s1 h1 h0 hc2 s2 h2 hc3 s3 h3 bs' hrec ih =>
    intro bs h
    simp only [decB64, h0, h1, h2, h3, hrec] at h
    simp [hc2, hc3] at h
    have hb := ih bs' hrec
    rw [← h]
    simp only [List.length_cons]
    omega
  | case6 c0 c1 c2 c3 rest s0 s1 h1 h0 hc2 s2 h2 hc3 s3 h3 hrec ih =>
    intro bs h
    simp only [decB64, h0, h1, h2, h3, hrec] at h
    simp [hc2, hc3] at h
  | case7 c0 c1 c2 c3 rest s0 s1 h1 h0 hc2 s2 h2 hc3 h3 =>
    intro bs h
    simp only [decB64, h0, h1, h2, h3] at h
    simp [hc2, hc3] at h
  | case8 c0 c1 c2 c3 rest s0 s1 h1 h0 hc2 h2 =>
    intro bs h
    simp only [decB64, h0, h1, h2] at h
    simp [hc2] at h
  | case9 c0 c1 c2 c3 rest hfail =>
    intro bs h
    rcases hx0 : b64index c0 with _ | s0
    · simp only [decB64, hx0] at h
      simp at h
    · rcases hx1 : b64index c1 with _ | s1
      · simp only [decB64, hx0, hx1] at h
        simp at h
      · exact (hfail s0 s1 hx0 hx1).elim
  | case10 =>
    intro bs h
    simp [decB64] at h
    simp [h]
  | case11 t ht4 htn =>
    intro bs h
    rcases t with _ | ⟨a, t1⟩
    · exact absurd rfl htn
    rcases t1 with _ | ⟨b, t2⟩
    · simp [decB64] at h
    rcases t2 with _ | ⟨c, t3⟩
    · simp [decB64] at h
    rcases t3 with _ | ⟨d, t4⟩
    · simp [decB64] at h
    · exact (ht4 a b c d t4 rfl).elim

/-- C10: for every chunk of any split token, Go's `DecodedLen` of the
padding-restored chunk (`len/4*3`, the most `enc.Decode` ever writes) fits
in the decode buffer of size `maxlen(chunks)+3` allocated at part_000 line
111, and so does the actual decoded output: none of the three in-place
decodes can write out of bounds. -/
theorem c10_buffer_bound (token c bs : List Nat)
    (hc : c ∈ splitDot token) (hdec : decB64 (fixPadding c) = some bs) :
    (fixPadding c).length / 4 * 3 ≤ maxlen (splitDot token) + 3 ∧
      bs.length ≤ maxlen (splitDot token) + 3 := by
  have h1 : c.length ≤ maxlen (splitDot token) := length_le_maxlen _ c hc
  have h2 : (fixPadding c).length ≤ c.length + 3 := fixPadding_length_le c
  have h3 := decB64_length (fixPadding c) bs hdec
  constructor <;> omega

theorem c10_buffer_bound_witness :
    (fixPadding [65, 65]).length / 4 * 3 ≤ maxlen (splitDot token3) + 3 ∧
      [0].length ≤ maxlen (splitDot token3) + 3 :=
  c10_buffer_bound token3 [65, 65] [0] (by decide) (by decide)

/-! ## C1: claims are written before validation — the code leaks -/

/-- C1: the claim FAILS on the code.  The claims unmarshal into the
caller's target (part_000 line 134) happens before the algorithm, key-id,
signature and temporal checks, so every later validation failure returns a
non-nil error with the target already overwritten.  Concretely: a
well-formed token whose header carries `alg = "HS384"`, decoded with an
HS256-algorithm verifier, yields `ErrInvalidSigner` while the caller's
claims target, `0` before the call, holds the parsed payload `7`
afterwards — contradicting both the claim and the function's own doc
comment ("it's not possible to extract claims from invalid tokens"). -/
theorem c1_target_written_on_error :
    (DecodeClaims (constCodec ⟨"HS384", ""⟩ ⟨0, 0⟩ 7) 0 token3
      (constVerifier "HS256" none) 0).1 = some DErr.invalidSigner ∧
    (DecodeClaims (constCodec ⟨"HS384", ""⟩ ⟨0, 0⟩ 7) 0 token3
      (constVerifier "HS256" none) 0).2 = 7 := by
  decide

/-! ## C9: the key-id capability is structural -/

theorem decodeClaims_invalidSigner_iff {α ε : Type} (codec : JsonCodec α) (now : Int)
    (token : List Nat) (v : VerifierM ε) (claims0 : α) (c0 c1 c2 hB : List Nat)
    (header : HeaderV) (cB : List Nat) (claims1 : α) (lt : Lifetime)
    (hsplit : splitDot token = [c0, c1, c2])
    (hh : decB64 (fixPadding c0) = some hB)
    (hph : codec.parseHeader hB = some header)
    (hc : decB64 (fixPadding c1) = some cB)
    (huc : codec.updateClaims cB claims0 = some claims1)
    (hpl : codec.parseLifetime cB = some lt) :
    (DecodeClaims codec now token v claims0).1 = some DErr.invalidSigner ↔
      (header.alg ≠ v.algorithm ∨ kidMismatch v.keyID header.kid = true) := by
  by_cases halg : header.alg = v.algorithm
  · by_cases hk : kidMismatch v.keyID header.kid = true
    · simp [DecodeClaims, hsplit, hh, hph, hc, huc, hpl, halg, hk]
    · have hk' : kidMismatch v.keyID header.kid = false := by
        cases hx : kidMismatch v.keyID header.kid
        · rfl
        · exact absurd hx hk
      have htail := decodeClaims_tail_ne_invalidSigner now token v claims1 c2 lt
      simp only [DecodeClaims, hsplit, hh, hph, hc, huc, hpl, halg, hk', ne_eq,
        not_true_eq_false, if_false, Bool.false_eq_true, or_self, iff_false]
      exact htail
  · simp [DecodeClaims, hsplit, hh, hph, hc, huc, hpl, halg]

/-- C9: every HMAC signer/verifier exposes `KeyID()` even when constructed
with an empty key id, so an HMAC verifier built with key id `""` rejects
with `ErrInvalidSigner` any well-formed token whose header carries a
non-empty `kid`; an RSA verifier object never exposes `KeyID()`, so with a
matching algorithm `DecodeClaims` never reports `ErrInvalidSigner`
regardless of the header's `kid`. -/
theorem c9_structural_keyid {α : Type} :
    (∀ c : MacCap, (HMAC256 c "").keyID = some "") ∧
    (∀ c : RsaCap, (RSA256Verifier c).keyID = none) ∧
    (∀ (c : MacCap) (codec : JsonCodec α) (now : Int) (token : List Nat) (claims0 : α)
        (c0 c1 c2 hB : List Nat) (header : HeaderV) (cB : List Nat) (claims1 : α)
        (lt : Lifetime),
      splitDot token = [c0, c1, c2] → decB64 (fixPadding c0) = some hB →
      codec.parseHeader hB = some header → decB64 (fixPadding c1) = some cB →
      codec.updateClaims cB claims0 = some claims1 → codec.parseLifetime cB = some lt →
      header.alg = "HS256" → header.kid ≠ "" →
      (DecodeClaims codec now token (HMAC256 c "").toVerifierM claims0).1 =
        some DErr.invalidSigner) ∧
    (∀ (c : RsaCap) (codec : JsonCodec α) (now : Int) (token : List Nat) (claims0 : α)
        (c0 c1 c2 hB : List Nat) (header : HeaderV) (cB : List Nat) (claims1 : α)
        (lt : Lifetime),
      splitDot token = [c0, c1, c2] → decB64 (fixPadding c0) = some hB →
      codec.parseHeader hB = some header → decB64 (fixPadding c1) = some cB →
      codec.updateClaims cB claims0 = some claims1 → codec.parseLifetime cB = some lt →
      header.alg = "RS256" →
      (DecodeClaims codec now token (RSA256Verifier c) claims0).1 ≠
        some DErr.invalidSigner) := by
  refine ⟨fun c => rfl, fun c => rfl, ?_, ?_⟩
  · intro c codec now token claims0 c0 c1 c2 hB header cB claims1 lt hsplit hh hph hc
      huc hpl halg hkid
    rw [decodeClaims_invalidSigner_iff codec now token _ claims0 c0 c1 c2 hB header cB
      claims1 lt hsplit hh hph hc huc hpl]
    exact Or.inr (by simp [HMAC256, kidMismatch, bne_iff_ne, hkid, Ne.symm hkid])
  · intro c codec now token claims0 c0 c1 c2 hB header cB claims1 lt hsplit hh hph hc
      huc hpl halg hcontra
    rcases (decodeClaims_invalidSigner_iff codec now token _ claims0 c0 c1 c2 hB header
      cB claims1 lt hsplit hh hph hc huc hpl).mp hcontra with h | h
    · rw [halg] at h
      exact h rfl
    · simp [RSA256Verifier, kidMismatch] at h

theorem c9_structural_keyid_witness :
    (HMAC256 testMac "").keyID = some "" ∧
    (RSA256Verifier testRsa).keyID = none ∧
    (DecodeClaims (constCodec ⟨"HS256", "zz"⟩ ⟨0, 0⟩ 7) 0 token3
        (HMAC256 testMac "").toVerifierM 0).1 = some DErr.invalidSigner ∧
    (DecodeClaims (constCodec ⟨"RS256", "zz"⟩ ⟨0, 0⟩ 7) 0 token3
        (RSA256Verifier testRsa) 0).1 ≠ some DErr.invalidSigner :=
  ⟨(@c9_structural_keyid Nat).1 testMac,
    (@c9_structural_keyid Nat).2.1 testRsa,
    (@c9_structural_keyid Nat).2.2.1 testMac (constCodec ⟨"HS256", "zz"⟩ ⟨0, 0⟩ 7) 0
      token3 0 [65, 65] [65, 65] [65, 65] [0] ⟨"HS256", "zz"⟩ [0] 7 ⟨0, 0⟩
      (by decide) (by decide) rfl (by decide) rfl rfl (by decide) (by decide),
    (@c9_structural_keyid Nat).2.2.2 testRsa (constCodec ⟨"RS256", "zz"⟩ ⟨0, 0⟩ 7) 0
      token3 0 [65, 65] [65, 65] [65, 65] [0] ⟨"RS256", "zz"⟩ [0] 7 ⟨0, 0⟩
      (by decide) (by decide) rfl (by decide) rfl rfl (by decide)⟩

/-! ## C4: encode then decode is the identity -/

/-- C4: for a claims value `C` and signer `S` whose verify side accepts its
own signatures, decoding the token produced by `Encode S C` with `S`'s
verifier succeeds and writes exactly `C` into the output claims target,
provided the serialized claims carry no `exp`/`nbf` violating the current
time and the JSON capability round-trips the header and claims. -/
theorem c4_encode_decode {α ε : Type} (codec : JsonCodec α) (S : SignerM ε) (C out0 : α)
    (now : Int) (hJ cJ sg : List Nat) (lt : Lifetime)
    (hH : codec.serializeHeader S.algorithm (S.keyID.getD "") = some hJ)
    (hPH : codec.parseHeader hJ = some ⟨S.algorithm, S.keyID.getD ""⟩)
    (hC : codec.serializeClaims C = some cJ)
    (hUC : codec.updateClaims cJ out0 = some C)
    (hPL : codec.parseLifetime cJ = some lt)
    (hexp : ¬(lt.exp ≠ 0 ∧ lt.exp < now)) (hnbf : ¬(lt.nbf ≠ 0 ∧ now < lt.nbf))
    (hbH : ∀ b ∈ hJ, b < 256) (hbC : ∀ b ∈ cJ, b < 256) (hbS : ∀ b ∈ sg, b < 256)
    (hsig : S.sign (encode hJ ++ 46 :: encode cJ) = some sg)
    (hver : S.verify sg (encode hJ ++ 46 :: encode cJ) = none) :
    ∃ token, Encode codec S C = some token ∧
      DecodeClaims codec now token S.toVerifierM out0 = (none, C) := by
  refine ⟨(encode hJ ++ 46 :: encode cJ) ++ 46 :: encode sg, ?_, ?_⟩
  · simp [Encode, hH, hC, hsig]
  · have hsplit : splitDot (encode hJ ++ 46 :: (encode cJ ++ 46 :: encode sg)) =
        [encode hJ, encode cJ, encode sg] :=
      splitDot_three _ _ _ (encode_no_dot hJ hbH) (encode_no_dot cJ hbC)
        (encode_no_dot sg hbS)
    have hbs : beforeSign (encode hJ ++ 46 :: (encode cJ ++ 46 :: encode sg))
        (encode sg) = encode hJ ++ 46 :: encode cJ := by
      have := beforeSign_eq (encode hJ ++ 46 :: encode cJ) (encode sg)
      simpa using this
    have hkid : kidMismatch S.toVerifierM.keyID (S.keyID.getD "") = false :=
      kidMismatch_getD _
    simp [DecodeClaims, hsplit, b64_roundtrip hJ hbH, b64_roundtrip cJ hbC,
      b64_roundtrip sg hbS, hPH, hUC, hPL, hkid, hbs, hver, hexp, hnbf]

theorem c4_encode_decode_witness :
    ∃ token, Encode rtCodec (HMAC256 testMac "k") 7 = some token ∧
      DecodeClaims rtCodec 5 token (HMAC256 testMac "k").toVerifierM 0 = (none, 7) :=
  c4_encode_decode rtCodec (HMAC256 testMac "k") 7 0 5 [10] [7] [1] ⟨0, 0⟩
    rfl rfl rfl rfl rfl (by decide) (by decide) (by decide) (by decide) (by decide)
    (by decide) (by decide)

end Jwt
